import Mathlib

/-!
Verification of the citation post-processing core of `ai2-scholarqa-lib`
(`api/scholarqa/postprocess/json_output_utils.py`), against its
natural-language specification.

Python strings are embedded as `List Char`; all functions are executable
(structural or fuel-based recursion, so that concrete runs reduce inside
`decide` / `rfl`).  Python's `re` usage is embedded by direct determinised
matchers for the specific patterns appearing in the source.  The external
transliteration library `anyascii` (not part of this repository) is
modelled from the spec: identity on ASCII, a small table of ASCII
equivalents for the non-ASCII characters relevant here.
-/

abbrev Str := List Char

/-- Python `str.isspace` relevant set (ASCII fragment); used by `str.strip()`
and by the regex class `\s` / `\S`. -/
def pyIsSpace (c : Char) : Bool :=
  c = ' ' || c = '\t' || c = '\n' || c = '\x0d' || c = '\x0b' || c = '\x0c'

/-- Python `str.lstrip(chars)` : drop leading characters belonging to `set`. -/
def lstripSet (set : List Char) (s : Str) : Str :=
  s.dropWhile (fun c => set.contains c)

/-- Python `str.rstrip(chars)` : drop trailing characters belonging to `set`. -/
def rstripSet (set : List Char) (s : Str) : Str :=
  (s.reverse.dropWhile (fun c => set.contains c)).reverse

/-- Python `str.strip()` (no argument): trim whitespace at both ends. -/
def pyStrip (s : Str) : Str :=
  ((s.dropWhile pyIsSpace).reverse.dropWhile pyIsSpace).reverse

/-- Python `str.strip(chars)` : trim characters of `set` at both ends. -/
def pyStripSet (set : List Char) (s : Str) : Str :=
  rstripSet set (lstripSet set s)

/-- Python slice `s[1:-1]` (safe on short strings, as in Python). -/
def slice1neg1 (s : Str) : Str := (s.drop 1).dropLast

/-- Fuel-driven worker for `replaceAll`; the fuel bounds the number of
consumed characters, so `s.length` is always enough (call sites in the
source always pass a non-empty pattern). -/
def replaceAllAux (pat rep : Str) : Nat → Str → Str
  | 0, s => s
  | f + 1, s =>
    match s with
    | [] => []
    | c :: cs =>
      if pat ≠ [] ∧ pat.isPrefixOf s then rep ++ replaceAllAux pat rep f (s.drop pat.length)
      else c :: replaceAllAux pat rep f cs

/-- Python `str.replace(pat, rep)` : replace every non-overlapping occurrence,
left to right. -/
def replaceAll (s pat rep : Str) : Str := replaceAllAux pat rep s.length s

/-- Fuel-driven worker for `splitOnStr`. -/
def splitOnStrAux (sep : Str) : Nat → Str → Str → List Str
  | 0, acc, s => [acc ++ s]
  | f + 1, acc, s =>
    match s with
    | [] => [acc]
    | c :: cs =>
      if sep ≠ [] ∧ sep.isPrefixOf s then acc :: splitOnStrAux sep f [] (s.drop sep.length)
      else splitOnStrAux sep f (acc ++ [c]) cs

/-- Python `str.split(sep)` with a non-empty separator: split on every
non-overlapping occurrence, left to right; `"".split(sep) = [""]`. -/
def splitOnStr (sep s : Str) : List Str := splitOnStrAux sep s.length [] s

/-- Split on a single character (used for `ref_str.split(",")`). -/
def splitOnChar (sep : Char) : Str → List Str
  | [] => [[]]
  | c :: cs =>
    if c = sep then [] :: splitOnChar sep cs
    else
      match splitOnChar sep cs with
      | [] => [[c]]
      | p :: ps => (c :: p) :: ps

/-- Python `str.split(sep, maxsplit=1)` for a single-character separator. -/
def pySplitOnce (sep : Char) (s : Str) : List Str :=
  if s.contains sep then [s.takeWhile (fun c => c ≠ sep), (s.dropWhile (fun c => c ≠ sep)).drop 1]
  else [s]

/-- Python `pat in s` (substring containment test). -/
def occursStr (pat : Str) : Str → Bool
  | [] => pat.isEmpty
  | c :: cs => pat.isPrefixOf (c :: cs) || occursStr pat cs

/-- `anyascii` on one character.  Modelled from the spec: the library
transliterates to a plain ASCII-range representation; ASCII characters map
to themselves, and the non-ASCII characters relevant to this code base map
to their closest ASCII equivalents. -/
def anyasciiChar (c : Char) : Str :=
  if c.toNat < 128 then [c]
  else if c = '“' ∨ c = '”' then ['"']
  else if c = '‘' ∨ c = '’' then ['\'']
  else if c = 'é' then ['e']
  else []

/-- `anyascii` on a string: per-character transliteration, concatenated. -/
def anyascii (s : Str) : Str := (s.map anyasciiChar).flatten

/-- The label prefixes stripped by `normalize_id` (source lines 231-233),
checked in this order, each at most once. -/
def normPrefixList : List Str :=
  [("paperid ").data, ("paperId ").data, ("arxiv:").data, ("arXiv:").data]

/-- The prefix-stripping loop of `normalize_id`. -/
def stripNormPrefixes (s : Str) : Str :=
  normPrefixList.foldl (fun t p => if p.isPrefixOf t then t.drop p.length else t) s

/-- Trailing punctuation trimmed by `normalize_id` (source line 235). -/
def normTrailSet : List Char := ('.' :: ',' :: ';' :: ':' :: ' ' :: [']'])

/-- `normalize_id` (source lines 221-238): transliterate, trim whitespace,
strip known leading labels, trim trailing punctuation, trim leading `[`.
(The Python `None` input, mapped to `""`, has no counterpart here: inputs
are strings.) -/
def normalize_id (id_token : Str) : Str :=
  lstripSet ['['] (rstripSet normTrailSet (stripNormPrefixes (pyStrip (anyascii id_token))))

/-- Decimal digit character for `m < 10` (defaulting at `9`). -/
def digitChar : Nat → Char
  | 0 => '0' | 1 => '1' | 2 => '2' | 3 => '3' | 4 => '4'
  | 5 => '5' | 6 => '6' | 7 => '7' | 8 => '8' | _ => '9'

/-- Numeric value of a decimal digit character (0 elsewhere). -/
def charVal (c : Char) : Nat :=
  match c with
  | '0' => 0 | '1' => 1 | '2' => 2 | '3' => 3 | '4' => 4
  | '5' => 5 | '6' => 6 | '7' => 7 | '8' => 8 | '9' => 9 | _ => 0

/-- Fuel-driven decimal rendering worker. -/
def natStrAux : Nat → Nat → Str
  | 0, _ => []
  | f + 1, n => if n < 10 then [digitChar n] else natStrAux f (n / 10) ++ [digitChar (n % 10)]

/-- Python `str(n)` for a natural number. -/
def natStr (n : Nat) : Str := natStrAux (n + 1) n

/-- Decimal parsing (left fold), inverse of `natStr` on its range. -/
def strNat (s : Str) : Nat := s.foldl (fun a c => a * 10 + charVal c) 0

/-- Python `str(i)` for an integer. -/
def intStr (i : Int) : Str := if i < 0 then '-' :: natStr i.natAbs else natStr i.toNat

/-- Python `int(x)` applied to a (string) value: optional surrounding
whitespace, optional sign, a non-empty digit run (underscore digit
separators are not modelled).  `make_int` (scholarqa/utils.py lines 87-91)
returns this value, or `0` when `int` raises. -/
def make_int (s : Str) : Int :=
  let t := pyStrip s
  let (sign, digits) : Int × Str :=
    match t with
    | '-' :: r => (-1, r)
    | '+' :: r => (1, r)
    | r => (1, r)
  if digits ≠ [] ∧ digits.all (fun c => '0' ≤ c ∧ c ≤ '9') then sign * (strNat digits : Nat)
  else 0

/-- First-match association-list lookup: Python dict `d[k]` / `d.get(k)`
(keys are kept unique by `dictInsert` / `setA`). -/
def lookupA {α β : Type} [DecidableEq α] : List (α × β) → α → Option β
  | [], _ => none
  | (k, v) :: rest, key => if k = key then some v else lookupA rest key

/-- Python dict membership `k in d`. -/
def dmem {α β : Type} [DecidableEq α] (d : List (α × β)) (k : α) : Bool :=
  (lookupA d k).isSome

/-- Python dict assignment `d[k] = v`: update in place when the key exists
(keeping its insertion position), append otherwise. -/
def dictInsert {α β : Type} [DecidableEq α] : List (α × β) → α → β → List (α × β)
  | [], k, v => [(k, v)]
  | (k', v') :: rest, k, v =>
    if k' = k then (k, v) :: rest else (k', v') :: dictInsert rest k v

/-- The shared per-answer disambiguation state `citation_ids`:
author-year string -> (corpus id -> assigned label), as an insertion-ordered
association list (Python dicts preserve insertion order). -/
abbrev CState := List (Str × List (Str × Str))

/-- The label assigned by `resolve_ref_id` to the `n`-th distinct corpus id
(0-based) arriving under author-year string `r` (source lines 167-175):
the string itself for the first, a `_n` suffix spliced in after the first
comma-delimited segment (or appended, if no comma) for the rest. -/
def mkLabel (r : Str) (n : Nat) : Str :=
  if n = 0 then r
  else
    let parts := splitOnChar ',' r
    if 1 < parts.length then
      parts.headD [] ++ '_' :: (natStr n ++ ',' :: parts.getD 1 [])
    else r ++ '_' :: natStr n

/-- `resolve_ref_id` (source lines 162-179).  Returns the assigned label and
the evolved `citation_ids` state; an already-recorded
(author-year, corpus id) pair gets back its stored label. -/
def resolve_ref_id (ref_str ref_corpus_id : Str) (citation_ids : CState) : Str × CState :=
  let inner := (lookupA citation_ids ref_str).getD []
  match lookupA inner ref_corpus_id with
  | some l => (l, citation_ids)
  | none =>
    let l := mkLabel ref_str inner.length
    (l, dictInsert citation_ids ref_str (inner ++ [(ref_corpus_id, l)]))

/-- The label recorded for `(r, c)` in a `citation_ids` state, if any. -/
def assignedLabel (citation_ids : CState) (r c : Str) : Option Str :=
  (lookupA citation_ids r).bind (fun inner => lookupA inner c)

/-- One call to `resolve_ref_id` on a shared `citation_ids` map. -/
inductive RidStep : CState → CState → Prop where
  | step (r c : Str) (st : CState) : RidStep st (resolve_ref_id r c st).2

/-- State evolution by any sequence of `resolve_ref_id` calls. -/
def RidReaches : CState → CState → Prop := Relation.ReflTransGen RidStep

/-- Regex `\w` (ASCII fragment; the `tldr` marker itself is ASCII, so the
found/not-found distinction agrees with Python's Unicode `\w`). -/
def wordChar (c : Char) : Bool :=
  ('A' ≤ c && c ≤ 'Z') || ('a' ≤ c && c ≤ 'z') || ('0' ≤ c && c ≤ '9') || c = '_'

/-- ASCII lowercasing, for the `re.IGNORECASE` matching of ASCII patterns. -/
def lowerChar (c : Char) : Char :=
  if 'A' ≤ c ∧ c ≤ 'Z' then Char.ofNat (c.toNat + 32) else c

/-- ASCII lowercase of a string. -/
def lowerStr (s : Str) : Str := s.map lowerChar

/-- Maximal runs of characters satisfying `p`, in text order (fuel-driven). -/
def runsOfAux (p : Char → Bool) : Nat → Str → List Str
  | 0, _ => []
  | _ + 1, [] => []
  | f + 1, c :: cs =>
    if p c then (c :: cs.takeWhile p) :: runsOfAux p f (cs.dropWhile p)
    else runsOfAux p f cs

/-- Maximal runs of characters satisfying `p`. -/
def runsOf (p : Char → Bool) (s : Str) : List Str := runsOfAux p s.length s

/-- The maximal `\w` runs ("words") of a text. -/
def wordRuns (s : Str) : List Str := runsOf wordChar s

/-- Whether a word contains `tldr` case-insensitively. -/
def containsTldr (run : Str) : Bool := occursStr (("tldr").data) (lowerStr run)

/-- `re.search(r"\b\w*tldr\w*\b", text, re.IGNORECASE)` (source line 114):
the leftmost maximal `\w` run containing `tldr` case-insensitively (the
word boundaries force any match to cover a whole word). -/
def findTldrWord (text : Str) : Option Str := (wordRuns text).find? containsTldr

/-- Case-insensitive substring test (ASCII). -/
def ciOccurs (pat s : Str) : Bool := occursStr (lowerStr pat) (lowerStr s)

/-- `find_tldr_super_token` (source lines 112-127): locate the `tldr` word,
then the whole whitespace-delimited token around its leftmost
case-insensitive occurrence — i.e. the first maximal non-whitespace run in
which the word occurs (the greedy `[^\s]*` sides extend the match to the
full run). -/
def find_tldr_super_token (text : Str) : Option Str :=
  match findTldrWord text with
  | none => none
  | some tok => (runsOf (fun c => !pyIsSpace c) text).find? (fun r => ciOccurs tok r)

/-- One scanning step of `re.sub(r"\s*LIT", "", s)` for a literal `LIT`
starting with a non-whitespace character: each occurrence of `LIT`, together
with the maximal whitespace run immediately before it, is removed. -/
def subWsLitAux (lit : Str) : Nat → Str → Str
  | 0, s => s
  | f + 1, s =>
    match s with
    | [] => []
    | c :: cs =>
      let w := (s.takeWhile pyIsSpace).length
      if lit ≠ [] ∧ lit.isPrefixOf (s.drop w) then subWsLitAux lit f (s.drop (w + lit.length))
      else c :: subWsLitAux lit f cs

/-- `re.sub(r"\s*LIT", "", s)` for the `(list)` / `(synthesis)` markers. -/
def subWsLit (lit : Str) (s : Str) : Str := subWsLitAux lit s.length s

deriving instance DecidableEq for Except

/-- The error outcomes of the embedded functions: the generic
`Exception("Invalid content generated for the query by the LLM")` of
`get_section_text`, and Python `IndexError`. -/
inductive Err where
  | invalidContent
  | indexError
deriving DecidableEq, Repr

/-- The `{title, tldr, text}` part of a section (citations attached later). -/
structure SecText where
  title : Str
  tldr : Str
  text : Str
deriving DecidableEq, Repr

/-- `get_section_text` (source lines 130-159): split on the located tldr
super-token; the part before it (with `(list)` / `(synthesis)` markers
removed and `#` trimmed) is the title, the first line after it the tldr,
the remainder the text.  With no token, or with no remaining line after the
tldr line, the raised exception propagates to the caller. -/
def get_section_text (gen_text : Str) : Except Err SecText :=
  match find_tldr_super_token gen_text with
  | none => .error .invalidContent
  | some tok =>
    let parts := splitOnStr tok gen_text
    if parts.length > 1 then
      let title0 := pyStrip (parts.headD [])
      let title1 := subWsLit (("(list)").data) title0
      let title2 := subWsLit (("(synthesis)").data) title1
      let title := pyStrip (pyStripSet ['#'] title2)
      let text_parts := pySplitOnce '\n' (pyStrip (parts.getD 1 []))
      match text_parts with
      | tldr0 :: text0 :: _ =>
        .ok { title := title, tldr := pyStrip (pyStripSet ['#'] tldr0), text := text0 }
      | _ => .error .indexError
    else .error .invalidContent

/-- Regex `\S`: not whitespace. -/
def notSpace (c : Char) : Bool := !pyIsSpace c

/-- Regex class `[A-Za-z. ]` of the adjacency-fix pattern. -/
def isNameChar (c : Char) : Bool :=
  ('A' ≤ c && c ≤ 'Z') || ('a' ≤ c && c ≤ 'z') || c = '.' || c = ' '

/-- Regex `\d`. -/
def isDigitChar (c : Char) : Bool := '0' ≤ c && c ≤ '9'

/-- Matches ` \| \d+ \| Citations: \d+` at the start of `u`, returning the
matched length (each `\d+` is a maximal digit run: the greedy run cannot be
shortened because the next pattern character is a non-digit). -/
def matchAfterName (u : Str) : Option Nat :=
  if (" | ").data.isPrefixOf u then
    let u1 := u.drop 3
    let d1 := u1.takeWhile isDigitChar
    if d1 = [] then none
    else
      let u2 := u1.drop d1.length
      if (" | Citations: ").data.isPrefixOf u2 then
        let u3 := u2.drop 14
        let d2 := u3.takeWhile isDigitChar
        if d2 = [] then none else some (3 + d1.length + 14 + d2.length)
      else none
  else none

/-- Greedy-with-backtracking `[A-Za-z. ]+` followed by the rest of the
fragment pattern: try class lengths from `k` down to 1 (the regex engine's
longest-first order). -/
def tryNameLen (r2 : Str) : Nat → Option Nat
  | 0 => none
  | k + 1 =>
    match matchAfterName (r2.drop (k + 1)) with
    | some j => some (k + 1 + j)
    | none => tryNameLen r2 k

/-- Matches `\S+ \| [A-Za-z. ]+ \| \d+ \| Citations: \d+` at the start of
`t`, returning the matched length.  `\S+` is forced to the maximal
non-whitespace run (a shorter run would be followed by a non-space where the
pattern requires a space). -/
def matchFrag (t : Str) : Option Nat :=
  let m := t.takeWhile notSpace
  if m = [] then none
  else
    let r1 := t.drop m.length
    if (" | ").data.isPrefixOf r1 then
      let r2 := r1.drop 3
      match tryNameLen r2 (r2.takeWhile isNameChar).length with
      | some k => some (m.length + 3 + k)
      | none => none
    else none

/-- One attempt of `(?:; )?(\S+ \| [A-Za-z. ]+ \| \d+ \| Citations: \d+)`
at the start of `t`: the greedy optional group tries to absorb a leading
`; ` first.  Returns (whole match length, offset of group 1). -/
def tryRepair (t : Str) : Option (Nat × Nat) :=
  if ("; ").data.isPrefixOf t then
    match matchFrag (t.drop 2) with
    | some j => some (2 + j, 2)
    | none =>
      match matchFrag t with
      | some j => some (j, 0)
      | none => none
  else
    match matchFrag t with
    | some j => some (j, 0)
    | none => none

/-- The scan of `re.sub(pattern, r"] [\1", text)` (source lines 255-257):
at each position try the pattern; on a match emit `] [` followed by group 1
and continue after the match, otherwise emit the character. -/
def repairScanAux : Nat → Str → Str
  | 0, t => t
  | f + 1, t =>
    match t with
    | [] => []
    | c :: cs =>
      match tryRepair t with
      | some (len, off) => ("] [").data ++ (t.drop off).take (len - off) ++ repairScanAux f (t.drop len)
      | none => c :: repairScanAux f cs

/-- The adjacency-fix substitution of `get_json_summary`. -/
def repairSub (t : Str) : Str := repairScanAux t.length t

/-- `re.findall(r"\[.*?\]", text)` helper: from the characters after a `[`,
the non-greedy body runs to the first `]`, failing at a newline (`.` does
not match `\n`) or at the end. -/
def bracketBody : Str → Option (Str × Str)
  | [] => none
  | c :: cs =>
    if c = ']' then some ([], cs)
    else if c = '\n' then none
    else
      match bracketBody cs with
      | some (inn, rest) => some (c :: inn, rest)
      | none => none

/-- Fuel-driven worker for `findRefs`. -/
def findRefsAux : Nat → Str → List Str
  | 0, _ => []
  | _ + 1, [] => []
  | f + 1, c :: cs =>
    if c = '[' then
      match bracketBody cs with
      | some (inn, rest) => ('[' :: inn ++ [']']) :: findRefsAux f rest
      | none => findRefsAux f cs
    else findRefsAux f cs

/-- `re.findall(r"\[.*?\]", text)`: leftmost non-overlapping minimal bracket
spans. -/
def findRefs (t : Str) : List Str := findRefsAux t.length t

/-- A quote-pool record: the cited quote and its nested inline citations. -/
structure QuoteRec where
  quote : Str
  inline_citations : List (Str × Str)
deriving DecidableEq, Repr, Inhabited

/-- Paper metadata row (`paper_metadata[corpus_id]`); `year` is kept as the
stored textual value (the source re-coerces it with `make_int`). -/
structure Metadata where
  title : Str
  authors : List Str
  year : Str
  venue : Str
  citationCount : Int
  relevance_judgement : Option Int
deriving DecidableEq, Repr

/-- The nested `paper` dict of a citation record; optional fields are only
present when metadata was found. -/
structure PaperInfo where
  corpus_id : Str
  title : Option Str := none
  authors : Option (List Str) := none
  year : Option Int := none
  venue : Option Str := none
  n_citations : Option Int := none
deriving DecidableEq, Repr

/-- A built citation record (`pop_ref_data`'s result). -/
structure CitationRecord where
  id : Str
  snippets : List Str
  paper : PaperInfo
  score : Option Int := none
deriving DecidableEq, Repr

/-- `key[1:-1].split(" | ")[0]` — the first pipe-delimited field of a
bracket key (the `try`/`except` around it in the source cannot fire:
slicing and splitting are total). -/
def firstField (key : Str) : Str :=
  (splitOnStr ((" | ").data) (slice1neg1 key)).headD []

/-- `key_to_norm_id` (source lines 241-246). -/
def key_to_norm_id (key : Str) : Str := normalize_id (firstField key)

/-- `id_to_main_key` / `id_to_inline_key` (source lines 248-249): dict
comprehension from normalized first field to the original key (later keys
overwrite earlier ones, keeping the first insertion position). -/
def buildIdMap (keys : List Str) : List (Str × Str) :=
  keys.foldl (fun d k => dictInsert d (key_to_norm_id k) k) []

/-- The resolution of one bracket token (source lines 267-297): exact key
match in the main then the inline pool, else normalized-id match, else
unique-prefix match (main pool first).  Returns the resolved pool key and
`true` for the main pool / `false` for the inline pool. -/
def resolveRef (mq : List (Str × QuoteRec)) (iq : List (Str × Str)) (ref : Str) :
    Option (Str × Bool) :=
  if dmem mq ref then some (ref, true)
  else if dmem iq ref then some (ref, false)
  else
    let n := normalize_id (firstField ref)
    let mMap := buildIdMap (mq.map Prod.fst)
    let iMap := buildIdMap (iq.map Prod.fst)
    match lookupA mMap n with
    | some k => some (k, true)
    | none =>
      match lookupA iMap n with
      | some k => some (k, false)
      | none =>
        let mc := if n = [] then [] else (mMap.map Prod.fst).filter (fun k => n.isPrefixOf k)
        let ic := if n = [] then [] else (iMap.map Prod.fst).filter (fun k => n.isPrefixOf k)
        if mc.length = 1 then some ((lookupA mMap (mc.headD [])).getD [], true)
        else if ic.length = 1 then some ((lookupA iMap (ic.headD [])).getD [], false)
        else none

/-- The quote clean-up applied before `pop_ref_data` (source lines
310-314): trim, straighten curly quotes, drop one leading and one trailing
`...` artifact. -/
def fixQuote (q : Str) : Str :=
  let a := replaceAll (replaceAll (pyStrip q) ['“'] ['"']) ['”'] ['"']
  let b := if ("...").data.isPrefixOf a then a.drop 3 else a
  if ("...").data.isSuffixOf b then b.take (b.length - 3) else b

/-- `pop_ref_data` (source lines 182-205): snippets are the quote split on
`...` with each fragment trimmed; metadata fields are copied when present. -/
def pop_ref_data (ref_str_id ref_corpus_id : Str) (fixed_quote : Str)
    (md : Option Metadata) : CitationRecord :=
  let base : CitationRecord :=
    { id := ref_str_id
      snippets := (splitOnStr (("...").data) fixed_quote).map pyStrip
      paper := { corpus_id := ref_corpus_id } }
  match md with
  | none => base
  | some m =>
    { base with
      score := some (m.relevance_judgement.getD 0)
      paper :=
        { corpus_id := ref_corpus_id
          title := some m.title
          authors := some m.authors
          year := some (make_int m.year)
          venue := some m.venue
          n_citations := some m.citationCount } }

/-- The `text_ref_format` inline tag (source line 213). -/
def paperTag (corpus_id ref_str : Str) : Str :=
  ("<Paper corpusId=\"").data ++ corpus_id ++ ("\" arxivId=\"").data ++ corpus_id
    ++ ("\" paperTitle=\"").data ++ ref_str ++ ("\" isShortName></Paper>").data

/-- The immutable inputs of the per-section reference loop. -/
structure Config where
  mq : List (Str × QuoteRec)
  iq : List (Str × Str)
  paper_metadata : List (Str × Metadata)
  inline_tags : Bool
deriving DecidableEq, Repr

/-- The mutable state threaded through the per-section reference loop. -/
structure SecState where
  text : Str
  refs_done : List Str
  refs_list : List CitationRecord
  citation_ids : CState
deriving DecidableEq, Repr

/-- One iteration of the reference loop (source lines 265-328).  An
unresolved token (or a resolved key that is empty, hence falsy) is erased
from the text; a resolved corpus id already done in this section skips the
whole block; otherwise the record is built, appended, and the token
replaced.  A resolved key with fewer than three pipe fields raises
`IndexError`. -/
def processRef (cfg : Config) (st : SecState) (ref0 : Str) : Except Err SecState :=
  let ref := anyascii ref0
  let res := resolveRef cfg.mq cfg.iq ref
  match res with
  | some (key, isMain) =>
    if key = [] then .ok { st with text := replaceAll st.text ref [] }
    else
      let ref_parts := splitOnStr ((" | ").data) (slice1neg1 key)
      if 3 ≤ ref_parts.length then
        let ref_corpus_id := ref_parts.headD []
        let ref_str :=
          replaceAll
            (('(' :: ref_parts.getD 1 []) ++ (", ").data
              ++ intStr (make_int (ref_parts.getD 2 [])) ++ [')'])
            (("NULL, ").data) []
        let norm_done_id := normalize_id ref_corpus_id
        if norm_done_id ∈ st.refs_done then .ok st
        else
          let fixed_quote :=
            if isMain then ((lookupA cfg.mq key).getD default).quote
            else (lookupA cfg.iq key).getD []
          let fq := fixQuote fixed_quote
          let rid := resolve_ref_id ref_str ref_corpus_id st.citation_ids
          let ref_data := pop_ref_data rid.1 ref_corpus_id fq (lookupA cfg.paper_metadata ref_corpus_id)
          let rep := if cfg.inline_tags then paperTag ref_data.paper.corpus_id ref_data.id else ref_data.id
          .ok { text := replaceAll st.text ref rep
                refs_done := st.refs_done ++ [norm_done_id]
                refs_list := st.refs_list ++ [ref_data]
                citation_ids := rid.2 }
      else .error .indexError
  | none => .ok { st with text := replaceAll st.text ref [] }

/-- The reference loop over all found bracket tokens. -/
def processRefs (cfg : Config) : List Str → SecState → Except Err SecState
  | [], st => .ok st
  | r :: rs, st =>
    match processRef cfg st r with
    | .ok st' => processRefs cfg rs st'
    | .error e => .error e

/-- Fuel-driven worker for `collapseSpaces`. -/
def collapseSpacesAux : Nat → Str → Str
  | 0, t => t
  | _ + 1, [] => []
  | f + 1, c :: cs =>
    if c = ' ' then ' ' :: collapseSpacesAux f (cs.dropWhile (fun x => x = ' '))
    else c :: collapseSpacesAux f cs

/-- `re.sub(r"[ ]+", " ", text)` (source line 329). -/
def collapseSpaces (t : Str) : Str := collapseSpacesAux t.length t

/-- ASCII uppercasing of one character. -/
def upperChar (c : Char) : Char :=
  if 'a' ≤ c ∧ c ≤ 'z' then Char.ofNat (c.toNat - 32) else c

/-- Python `str.capitalize()` (ASCII): first character uppercased, the rest
lowercased. -/
def pyCapitalize (s : Str) : Str :=
  match s with
  | [] => []
  | c :: cs => upperChar c :: lowerStr cs

/-- The `llm_ref_format` model-attribution tag (source line 216). -/
def modelTag (name version : Str) : Str :=
  ("<Model name=\"").data ++ pyCapitalize name ++ ("\" version=\"").data ++ version ++ [('>')]

/-- The generator's own-knowledge sentinel (source line 259). -/
def llmSentinel : Str := ("[LLM MEMORY | 2024]").data

/-- A finished section. -/
structure Sec where
  title : Str
  tldr : Str
  text : Str
  citations : List CitationRecord
deriving DecidableEq, Repr

/-- Processing of one section inside `get_json_summary` (source lines
250-339): segmentation, adjacency repair, empty-bracket removal, sentinel
replacement, the reference loop over the found bracket tokens, space
collapapse and the tldr source-count suffix.  Note the token scan runs on
the text *before* the sentinel replacement, while replacements apply to the
already-substituted text, exactly as in the source. -/
def processSection (cfg : Config) (llm_ref_format : Str) (cids : CState) (sec : Str) :
    Except Err (Sec × CState) := do
  let cs ← get_section_text sec
  let text1 := repairSub cs.text
  let text2 := replaceAll text1 (("[]").data) []
  let st0 : SecState :=
    { text := replaceAll text2 llmSentinel llm_ref_format
      refs_done := []
      refs_list := []
      citation_ids := cids }
  let stF ← processRefs cfg (findRefs text2) st0
  let tldr2 :=
    if cs.tldr = [] then cs.tldr
    else if stF.refs_list ≠ [] then
      if 1 < stF.refs_list.length then
        cs.tldr ++ (" (").data ++ natStr stF.refs_list.length ++ (" sources)").data
      else cs.tldr ++ (" (1 source)").data
    else cs.tldr ++ (" (LLM Memory)").data
  pure ({ title := cs.title, tldr := tldr2, text := collapseSpaces stF.text,
          citations := stF.refs_list }, stF.citation_ids)

/-- The loop of `get_json_summary` over all sections, threading the shared
`citation_ids` state. -/
def sectionsLoop (cfg : Config) (llm_ref_format : Str) :
    List Str → CState → List Sec → Except Err (List Sec × CState)
  | [], cids, acc => .ok (acc, cids)
  | s :: ss, cids, acc =>
    match processSection cfg llm_ref_format cids s with
    | .ok (sec, cids') => sectionsLoop cfg llm_ref_format ss cids' (acc ++ [sec])
    | .error e => .error e

/-- `get_json_summary` (source lines 209-340).  The model tag is formatted
from `llm_model.split("/", maxsplit=1)` before anything else; with no `/`
in the model name, `llm_name_parts[1]` raises `IndexError`.  Quote-pool
keys are transliterated, and the inline pool is flattened from the nested
`inline_citations` maps. -/
def get_json_summary (llm_model : Str) (summary_sections : List Str)
    (summary_quotes : List (Str × QuoteRec)) (paper_metadata : List (Str × Metadata))
    (citation_ids : CState) (inline_tags : Bool) : Except Err (List Sec × CState) :=
  let llm_name_parts := pySplitOnce '/' llm_model
  if llm_name_parts.length < 2 then .error .indexError
  else
    let llm_ref_format := modelTag (llm_name_parts.headD []) (llm_name_parts.getD 1 [])
    let mq := summary_quotes.foldl (fun d kv => dictInsert d (anyascii kv.1) kv.2) []
    let iq := mq.foldl
      (fun d kv => kv.2.inline_citations.foldl (fun d2 kv2 => dictInsert d2 (anyascii kv2.1) kv2.2) d) []
    let cfg : Config :=
      { mq := mq, iq := iq, paper_metadata := paper_metadata, inline_tags := inline_tags }
    sectionsLoop cfg llm_ref_format summary_sections citation_ids []

instance : DecidableEq (List Sec × CState) := instDecidableEqProd

instance : DecidableEq (Sec × CState) := instDecidableEqProd

/-- Python values arriving at `safe_json_parse`: text, dicts, lists,
response wrappers carrying a `.content` payload, and arbitrary non-literal
objects carrying their `str()` rendering. -/
inductive PyVal where
  | pstr : Str → PyVal
  | pdict : List (PyVal × PyVal) → PyVal
  | plist : List PyVal → PyVal
  | wrapper : PyVal → PyVal
  | obj : Str → PyVal

mutual

/-- Python `str()` of a value (dicts and lists render by `repr`; string
quoting is modelled for quote-free strings). -/
def pyStr : PyVal → Str
  | .pstr s => '\'' :: (s ++ ['\''])
  | .pdict kvs => '\x7b' :: (pyStrKVs kvs ++ ['\x7d'])
  | .plist xs => '[' :: (pyStrList xs ++ [']'])
  | .wrapper _ => ("<wrapper>").data
  | .obj s => s

/-- Comma-joined renderings of list elements. -/
def pyStrList : List PyVal → Str
  | [] => []
  | [x] => pyStr x
  | x :: y :: xs => pyStr x ++ (", ").data ++ pyStrList (y :: xs)

/-- Comma-joined `key: value` renderings of dict items. -/
def pyStrKVs : List (PyVal × PyVal) → Str
  | [] => []
  | [(k, v)] => pyStr k ++ (": ").data ++ pyStr v
  | (k, v) :: y :: xs => pyStr k ++ (": ").data ++ pyStr v ++ (", ").data ++ pyStrKVs (y :: xs)

end

/-- Python `isinstance(x, (dict, list))` (source line 75). -/
def isStructured : PyVal → Bool
  | .pdict _ => true
  | .plist _ => true
  | _ => false

/-- The input coercion of `safe_json_parse` (source lines 29-33): a value
with a `.content` attribute is unwrapped; any other non-string value —
including a dict or list — is converted with `str()` before the
`isinstance(raw_output, (dict, list))` check at line 75 is ever reached. -/
def coerce_raw (v : PyVal) : PyVal :=
  match v with
  | .wrapper c => c
  | .pstr s => .pstr s
  | v' => .pstr (pyStr v')

/-- Invariant of one author-year entry of `citation_ids`: the `i`-th
recorded corpus id carries exactly the label `mkLabel r i`, and corpus ids
are distinct. -/
def innerOk (r : Str) (inner : List (Str × Str)) : Prop :=
  (∀ i (h : i < inner.length), (inner.get ⟨i, h⟩).2 = mkLabel r i) ∧ (inner.map Prod.fst).Nodup

/-- Invariant of a reachable `citation_ids` state. -/
def ridOk (st : CState) : Prop :=
  (st.map Prod.fst).Nodup ∧ ∀ p ∈ st, innerOk p.1 p.2

/-- First call of the C1 scenario: corpus id 101 under `(Doe, 2024)`. -/
def c1st1 : CState := (resolve_ref_id (("(Doe, 2024)").data) (("101").data) []).2

/-- Second call of the C1 scenario: a different corpus id 102 under the
same author-year string. -/
def c1r2 : Str × CState := resolve_ref_id (("(Doe, 2024)").data) (("102").data) c1st1

/-- Third call of the C1 scenario: corpus id 103 under the author-year
string `(Doe_1, 2024)`, which literally equals the suffixed label just
assigned to 102. -/
def c1r3 : Str × CState := resolve_ref_id (("(Doe_1, 2024)").data) (("103").data) c1r2.2

/-- The prefix-candidate list of source lines 290-291 for one pool. -/
def prefixCands (keys : List Str) (ref : Str) : List Str :=
  let n := normalize_id (firstField ref)
  if n = [] then [] else ((buildIdMap keys).map Prod.fst).filter (fun k => n.isPrefixOf k)

/-- C2 witness main pool: two keys whose normalized ids `12` and `13` both
extend the prefix `1`. -/
def c2mq : List (Str × QuoteRec) :=
  [((("[12 | A | 2020 | Citations: 1]").data), { quote := ("qa").data, inline_citations := [] }),
   ((("[13 | B | 2021 | Citations: 2]").data), { quote := ("qb").data, inline_citations := [] })]

/-- C2 witness inline pool: a single key whose normalized id `15` extends
the prefix `1`. -/
def c2iq : List (Str × Str) :=
  [((("[15 | C | 2019 | Citations: 0]").data), ("abs").data)]

/-- A quote-pool key for the C3 scenario. -/
def c3key : Str := ("[7 | Smith | 2020 | Citations: 3]").data

/-- C3 scenario configuration: one pooled quote under `c3key`. -/
def c3cfg : Config :=
  { mq := [(c3key, { quote := ("some quote").data, inline_citations := [] })]
    iq := []
    paper_metadata := []
    inline_tags := false }

/-- C3 scenario starting state: the section text carries the full composite
token and, later, the shorthand token `[7]` resolving to the same corpus
id. -/
def c3st0 : SecState :=
  { text := ("A [7 | Smith | 2020 | Citations: 3] B [7] C").data
    refs_done := []
    refs_list := []
    citation_ids := [] }

/-- A section state in which corpus id `7` has already been resolved
(C3 witness). -/
def c3st1 : SecState :=
  { text := ("B [7] C").data
    refs_done := [("7").data]
    refs_list := []
    citation_ids := [] }

/-- A composite-key-shaped fragment `id | Name | year | Citations: n`
(the text matched by the adjacency-fix pattern's group). -/
def fragStr (idF nameF yearF nF : Str) : Str :=
  idF ++ (" | ").data ++ nameF ++ (" | ").data ++ yearF ++ (" | Citations: ").data ++ nF

/-! ## Supporting lemmas -/

theorem dropWhile_head_false {p : Char → Bool} :
    ∀ (l : Str) (c : Char), (l.dropWhile p).head? = some c → p c = false := by
  intro l
  induction l with
  | nil => intro c h; simp at h
  | cons a as ih =>
    intro c h
    by_cases hp : p a
    · rw [List.dropWhile_cons_of_pos hp] at h
      exact ih c h
    · rw [List.dropWhile_cons_of_neg hp] at h
      simp at h
      exact h ▸ Bool.eq_false_iff.mpr hp

theorem dropWhile_eq_self {p : Char → Bool} {l : Str}
    (h : ∀ c, l.head? = some c → p c = false) : l.dropWhile p = l := by
  cases l with
  | nil => rfl
  | cons a as =>
    have := h a rfl
    simp [List.dropWhile_cons, this]

theorem takeWhile_all_head {p : Char → Bool} :
    ∀ (xs ys : Str), (∀ c ∈ xs, p c = true) → (∀ c, ys.head? = some c → p c = false) →
      (xs ++ ys).takeWhile p = xs := by
  intro xs
  induction xs with
  | nil =>
    intro ys _ hy
    cases ys with
    | nil => rfl
    | cons b bs => simp [List.takeWhile_cons, hy b rfl]
  | cons a as ih =>
    intro ys hx hy
    have ha : p a = true := hx a (by simp)
    simp only [List.cons_append, List.takeWhile_cons, ha, if_true]
    rw [ih ys (fun c hc => hx c (by simp [hc])) hy]

theorem lookupA_eq_none {α β : Type} [DecidableEq α] :
    ∀ (l : List (α × β)) (k : α), lookupA l k = none ↔ ∀ p ∈ l, p.1 ≠ k := by
  intro l k
  induction l with
  | nil => simp [lookupA]
  | cons a as ih =>
    obtain ⟨k', v'⟩ := a
    by_cases h : k' = k
    · simp [lookupA, h]
    · simp [lookupA, h, ih]

theorem lookupA_eq_some_mem {α β : Type} [DecidableEq α] :
    ∀ (l : List (α × β)) (k : α) (v : β), lookupA l k = some v → (k, v) ∈ l := by
  intro l k v
  induction l with
  | nil => intro h; simp [lookupA] at h
  | cons a as ih =>
    obtain ⟨k', v'⟩ := a
    intro h
    by_cases hk : k' = k
    · subst hk
      simp [lookupA] at h
      simp [h]
    · simp [lookupA, hk] at h
      exact List.mem_cons_of_mem _ (ih h)

theorem lookupA_append_left {α β : Type} [DecidableEq α] :
    ∀ (l l' : List (α × β)) (k : α) (v : β), lookupA l k = some v →
      lookupA (l ++ l') k = some v := by
  intro l l' k v
  induction l with
  | nil => intro h; simp [lookupA] at h
  | cons a as ih =>
    obtain ⟨k', v'⟩ := a
    intro h
    by_cases hk : k' = k
    · simp_all [lookupA]
    · simp_all [lookupA]

theorem lookupA_dictInsert_self {α β : Type} [DecidableEq α] :
    ∀ (l : List (α × β)) (k : α) (v : β), lookupA (dictInsert l k v) k = some v := by
  intro l k v
  induction l with
  | nil => simp [dictInsert, lookupA]
  | cons a as ih =>
    obtain ⟨k', v'⟩ := a
    by_cases hk : k' = k
    · simp [dictInsert, hk, lookupA]
    · simp [dictInsert, hk, lookupA, ih]

theorem lookupA_dictInsert_ne {α β : Type} [DecidableEq α] :
    ∀ (l : List (α × β)) (k k₀ : α) (v : β), k₀ ≠ k →
      lookupA (dictInsert l k v) k₀ = lookupA l k₀ := by
  intro l k k₀ v hne
  induction l with
  | nil =>
    simp only [dictInsert, lookupA]
    rw [if_neg (fun h => hne h.symm)]
  | cons a as ih =>
    obtain ⟨k', v'⟩ := a
    by_cases hk : k' = k
    · subst hk
      simp only [dictInsert, if_pos rfl, lookupA]
      rw [if_neg (fun h => hne h.symm), if_neg (fun h => hne h.symm)]
    · by_cases hk0 : k' = k₀
      · subst hk0
        simp [dictInsert, if_neg hk, lookupA]
      · simp [dictInsert, hk, lookupA, hk0, ih]

theorem map_fst_dictInsert_mem {α β : Type} [DecidableEq α] :
    ∀ (l : List (α × β)) (k : α) (v : β), k ∈ l.map Prod.fst →
      (dictInsert l k v).map Prod.fst = l.map Prod.fst := by
  intro l k v
  induction l with
  | nil => intro h; simp at h
  | cons a as ih =>
    obtain ⟨k', v'⟩ := a
    intro h
    by_cases hk : k' = k
    · simp [dictInsert, hk]
    · have : k ∈ as.map Prod.fst := by
        rcases List.mem_cons.mp h with h1 | h1
        · exact absurd h1.symm hk
        · exact h1
      simp [dictInsert, hk, ih this]

theorem map_fst_dictInsert_not_mem {α β : Type} [DecidableEq α] :
    ∀ (l : List (α × β)) (k : α) (v : β), k ∉ l.map Prod.fst →
      (dictInsert l k v).map Prod.fst = l.map Prod.fst ++ [k] := by
  intro l k v
  induction l with
  | nil => intro _; simp [dictInsert]
  | cons a as ih =>
    obtain ⟨k', v'⟩ := a
    intro h
    have hk : k' ≠ k := by
      intro hk
      exact h (by simp [hk])
    have hnotin : k ∉ as.map Prod.fst := fun hmem => h (by simp [hmem])
    simp [dictInsert, hk, ih hnotin]

theorem mem_dictInsert {α β : Type} [DecidableEq α] :
    ∀ (l : List (α × β)) (k : α) (v : β) (p : α × β),
      (l.map Prod.fst).Nodup → p ∈ dictInsert l k v →
      p = (k, v) ∨ (p ∈ l ∧ p.1 ≠ k) := by
  intro l k v p
  induction l with
  | nil =>
    intro _ h
    simp [dictInsert] at h
    exact Or.inl h
  | cons a as ih =>
    obtain ⟨k', v'⟩ := a
    intro hnd h
    rw [List.map_cons, List.nodup_cons] at hnd
    by_cases hk : k' = k
    · subst hk
      rw [dictInsert, if_pos rfl] at h
      rcases List.mem_cons.mp h with h1 | h1
      · exact Or.inl h1
      · refine Or.inr ⟨List.mem_cons_of_mem _ h1, ?_⟩
        intro hpk
        have hm : p.1 ∈ as.map Prod.fst := List.mem_map_of_mem Prod.fst h1
        rw [hpk] at hm
        exact hnd.1 hm
    · rw [dictInsert, if_neg hk] at h
      rcases List.mem_cons.mp h with h1 | h1
      · subst h1
        exact Or.inr ⟨by simp, hk⟩
      · rcases ih hnd.2 h1 with h2 | h2
        · exact Or.inl h2
        · exact Or.inr ⟨List.mem_cons_of_mem _ h2.1, h2.2⟩

theorem charVal_digitChar {m : Nat} (h : m < 10) : charVal (digitChar m) = m := by
  interval_cases m <;> rfl

theorem strNat_append_digit (xs : Str) (c : Char) :
    strNat (xs ++ [c]) = strNat xs * 10 + charVal c := by
  simp [strNat, List.foldl_append]

theorem strNat_natStrAux : ∀ (f n : Nat), n < f → strNat (natStrAux f n) = n := by
  intro f
  induction f with
  | zero => intro n h; omega
  | succ f ih =>
    intro n h
    by_cases h10 : n < 10
    · simp [natStrAux, h10, strNat, charVal_digitChar h10]
    · have hn1 : 1 ≤ n := by omega
      have hdiv : n / 10 < n := Nat.div_lt_self (by omega) (by omega)
      have hf : n / 10 < f := by omega
      rw [natStrAux, if_neg h10, strNat_append_digit, ih (n / 10) hf,
        charVal_digitChar (Nat.mod_lt n (by omega))]
      omega

theorem strNat_natStr (n : Nat) : strNat (natStr n) = n :=
  strNat_natStrAux (n + 1) n (by omega)

theorem natStr_inj {i j : Nat} (h : natStr i = natStr j) : i = j := by
  have := strNat_natStr i
  rw [h, strNat_natStr] at this
  omega

theorem splitOnChar_ne_nil (sep : Char) : ∀ (s : Str), splitOnChar sep s ≠ [] := by
  intro s
  induction s with
  | nil => simp [splitOnChar]
  | cons c cs ih =>
    by_cases h : c = sep
    · simp [splitOnChar, h]
    · simp only [splitOnChar, if_neg h]
      cases hs : splitOnChar sep cs with
      | nil => simp
      | cons p ps => simp

theorem splitOnChar_head_no_sep (sep : Char) :
    ∀ (s : Str), sep ∉ (splitOnChar sep s).headD [] := by
  intro s
  induction s with
  | nil => simp [splitOnChar]
  | cons c cs ih =>
    by_cases h : c = sep
    · simp [splitOnChar, h]
    · simp only [splitOnChar, if_neg h]
      cases hs : splitOnChar sep cs with
      | nil => simpa using fun hc => h hc.symm
      | cons p ps =>
        rw [hs] at ih
        simp only [List.headD_cons]
        intro hm
        rcases List.mem_cons.mp hm with h1 | h1
        · exact h h1.symm
        · exact ih (by simpa using h1)

theorem splitOnChar_reconstruct (sep : Char) :
    ∀ (s : Str), 1 < (splitOnChar sep s).length →
      ∃ rest, s = (splitOnChar sep s).headD [] ++ sep :: rest := by
  intro s
  induction s with
  | nil => intro h; simp [splitOnChar] at h
  | cons c cs ih =>
    intro h
    by_cases hc : c = sep
    · subst hc
      exact ⟨cs, by simp [splitOnChar]⟩
    · simp only [splitOnChar, if_neg hc] at h ⊢
      cases hs : splitOnChar sep cs with
      | nil => exact absurd hs (splitOnChar_ne_nil sep cs)
      | cons p ps =>
        rw [hs] at h
        simp at h
        have hlen : 1 < (splitOnChar sep cs).length := by
          rw [hs]; simp; omega
        obtain ⟨rest, hrest⟩ := ih hlen
        rw [hs] at hrest
        simp at hrest
        exact ⟨rest, by simp [hrest]⟩

theorem mkLabel_len_pos_no_comma (r : Str) {n : Nat} (hn : n ≠ 0)
    (hnc : ¬ 1 < (splitOnChar ',' r).length) : mkLabel r n = r ++ '_' :: natStr n := by
  simp [mkLabel, hn, hnc]

theorem mkLabel_inj (r : Str) {i j : Nat} (hij : i ≠ j) : mkLabel r i ≠ mkLabel r j := by
  have main : ∀ a b : Nat, a = 0 → b ≠ 0 → mkLabel r a ≠ mkLabel r b := by
    intro a b ha hb heq
    subst ha
    rw [mkLabel, if_pos rfl] at heq
    by_cases hc : 1 < (splitOnChar ',' r).length
    · obtain ⟨rest, hrest⟩ := splitOnChar_reconstruct ',' r hc
      rw [mkLabel, if_neg hb, if_pos hc] at heq
      have := List.append_cancel_left (hrest.symm.trans heq)
      simp at this
    · rw [mkLabel_len_pos_no_comma r hb hc] at heq
      have : r.length = (r ++ '_' :: natStr b).length := by rw [← heq]
      simp at this
  rcases Nat.eq_zero_or_pos i with hi | hi
  · exact main i j hi (by omega)
  · rcases Nat.eq_zero_or_pos j with hj | hj
    · exact fun h => main j i hj (by omega) h.symm
    · intro heq
      by_cases hc : 1 < (splitOnChar ',' r).length
      · rw [mkLabel, if_neg (by omega), if_pos hc, mkLabel, if_neg (by omega), if_pos hc] at heq
        have h1 := List.append_cancel_left heq
        simp only [List.cons.injEq, true_and] at h1
        have h2 := List.append_cancel_right h1
        exact hij (natStr_inj h2)
      · rw [mkLabel_len_pos_no_comma r (by omega) hc, mkLabel_len_pos_no_comma r (by omega) hc] at heq
        have h1 := List.append_cancel_left heq
        simp only [List.cons.injEq, true_and] at h1
        exact hij (natStr_inj h1)

theorem lookupA_append_right_of_none {α β : Type} [DecidableEq α] :
    ∀ (l l' : List (α × β)) (k : α), lookupA l k = none →
      lookupA (l ++ l') k = lookupA l' k := by
  intro l l' k
  induction l with
  | nil => intro _; rfl
  | cons a as ih =>
    obtain ⟨k', v'⟩ := a
    intro h
    by_cases hk : k' = k
    · simp [lookupA, hk] at h
    · simp [lookupA, hk] at h ⊢
      exact ih h

theorem innerOk_extend {r : Str} {inner : List (Str × Str)} {c : Str}
    (h : innerOk r inner) (hc : lookupA inner c = none) :
    innerOk r (inner ++ [(c, mkLabel r inner.length)]) := by
  constructor
  · intro i hi
    simp only [List.get_eq_getElem]
    rcases Nat.lt_or_ge i inner.length with hlt | hge
    · rw [List.getElem_append_left hlt]
      have := h.1 i hlt
      simpa using this
    · have hi' : i < inner.length + 1 := by simpa using hi
      have : i = inner.length := by omega
      subst this
      rw [List.getElem_append_right hge]
      simp
  · rw [List.map_append, List.nodup_append]
    refine ⟨h.2, by simp, ?_⟩
    intro a ha hb
    simp at hb
    rw [lookupA_eq_none] at hc
    rcases List.mem_map.mp ha with ⟨p, hp, rfl⟩
    exact hc p hp hb

theorem resolve_ref_id_found {r c : Str} {st : CState} {inner : List (Str × Str)} {l : Str}
    (hsr : lookupA st r = some inner) (hlc : lookupA inner c = some l) :
    resolve_ref_id r c st = (l, st) := by
  unfold resolve_ref_id
  rw [hsr]
  simp only [Option.getD_some]
  rw [hlc]

theorem resolve_ref_id_new {r c : Str} {st : CState} {inner : List (Str × Str)}
    (hsr : lookupA st r = some inner) (hlc : lookupA inner c = none) :
    resolve_ref_id r c st =
      (mkLabel r inner.length, dictInsert st r (inner ++ [(c, mkLabel r inner.length)])) := by
  unfold resolve_ref_id
  rw [hsr]
  simp only [Option.getD_some]
  rw [hlc]

theorem resolve_ref_id_fresh {r c : Str} {st : CState}
    (hsr : lookupA st r = none) :
    resolve_ref_id r c st = (mkLabel r 0, dictInsert st r [(c, mkLabel r 0)]) := by
  unfold resolve_ref_id
  rw [hsr]
  simp only [Option.getD_none, lookupA]
  rfl

theorem ridOk_step (r c : Str) (st : CState) (h : ridOk st) :
    ridOk (resolve_ref_id r c st).2 := by
  cases hsr : lookupA st r with
  | some inner =>
    have hmem : (r, inner) ∈ st := lookupA_eq_some_mem st r inner hsr
    have hinner : innerOk r inner := h.2 (r, inner) hmem
    cases hlc : lookupA inner c with
    | some l =>
      rw [resolve_ref_id_found hsr hlc]
      exact h
    | none =>
      rw [resolve_ref_id_new hsr hlc]
      constructor
      · rw [map_fst_dictInsert_mem st r _ (List.mem_map_of_mem Prod.fst hmem)]
        exact h.1
      · intro p hp
        rcases mem_dictInsert st r _ p h.1 hp with h1 | h1
        · subst h1
          exact innerOk_extend hinner hlc
        · exact h.2 p h1.1
  | none =>
    rw [resolve_ref_id_fresh hsr]
    have hr : r ∉ st.map Prod.fst := by
      rw [lookupA_eq_none] at hsr
      intro hm
      rcases List.mem_map.mp hm with ⟨p, hp, rfl⟩
      exact hsr p hp rfl
    constructor
    · rw [map_fst_dictInsert_not_mem st r _ hr, List.nodup_append]
      exact ⟨h.1, by simp, by intro a ha hb; simp at hb; subst hb; exact hr ha⟩
    · intro p hp
      rcases mem_dictInsert st r _ p h.1 hp with h1 | h1
      · subst h1
        constructor
        · intro i hi
          simp at hi
          subst hi
          simp [mkLabel]
        · simp
      · exact h.2 p h1.1

theorem ridOk_reaches {st : CState} (h : RidReaches [] st) : ridOk st := by
  have h' : Relation.ReflTransGen RidStep [] st := h
  clear h
  induction h' with
  | refl => exact ⟨by simp, by simp⟩
  | tail _ hstep ih =>
    cases hstep with
    | step r c => exact ridOk_step r c _ ih

theorem assigned_step {st st' : CState} (h : RidStep st st') (r c l : Str)
    (hl : assignedLabel st r c = some l) : assignedLabel st' r c = some l := by
  unfold assignedLabel at hl
  cases hsr : lookupA st r with
  | none => rw [hsr] at hl; simp at hl
  | some inner =>
    rw [hsr] at hl
    simp only [Option.some_bind] at hl
    cases h with
    | step r' c' =>
      cases hsr' : lookupA st r' with
      | some inner' =>
        cases hlc' : lookupA inner' c' with
        | some l' =>
          rw [resolve_ref_id_found hsr' hlc']
          unfold assignedLabel
          rw [hsr]
          simpa using hl
        | none =>
          rw [resolve_ref_id_new hsr' hlc']
          unfold assignedLabel
          by_cases hrr : r = r'
          · subst hrr
            rw [hsr] at hsr'
            injection hsr' with hinner
            subst hinner
            rw [lookupA_dictInsert_self]
            simpa using lookupA_append_left inner _ c l hl
          · rw [lookupA_dictInsert_ne st r' r _ hrr, hsr]
            simpa using hl
      | none =>
        rw [resolve_ref_id_fresh hsr']
        unfold assignedLabel
        by_cases hrr : r = r'
        · subst hrr
          rw [hsr] at hsr'
          exact absurd hsr' (by simp)
        · rw [lookupA_dictInsert_ne st r' r _ hrr, hsr]
          simpa using hl

theorem assigned_reaches {st st' : CState} (h : RidReaches st st') (r c l : Str)
    (hl : assignedLabel st r c = some l) : assignedLabel st' r c = some l := by
  have h' : Relation.ReflTransGen RidStep st st' := h
  clear h
  induction h' with
  | refl => exact hl
  | tail _ hstep ih => exact assigned_step hstep r c l ih

theorem resolve_of_assigned {st : CState} (r c l : Str)
    (h : assignedLabel st r c = some l) : (resolve_ref_id r c st).1 = l := by
  unfold assignedLabel at h
  cases hsr : lookupA st r with
  | none => rw [hsr] at h; simp at h
  | some inner =>
    rw [hsr] at h
    simp only [Option.some_bind] at h
    rw [resolve_ref_id_found hsr h]

theorem first_call_assigns (r c : Str) (st : CState) :
    assignedLabel (resolve_ref_id r c st).2 r c = some (resolve_ref_id r c st).1 := by
  cases hsr : lookupA st r with
  | some inner =>
    cases hlc : lookupA inner c with
    | some l =>
      rw [resolve_ref_id_found hsr hlc]
      unfold assignedLabel
      rw [hsr]
      simpa using hlc
    | none =>
      rw [resolve_ref_id_new hsr hlc]
      unfold assignedLabel
      rw [lookupA_dictInsert_self]
      simp only [Option.some_bind]
      rw [lookupA_append_right_of_none inner _ c hlc]
      simp [lookupA]
  | none =>
    rw [resolve_ref_id_fresh hsr]
    unfold assignedLabel
    rw [lookupA_dictInsert_self]
    simp [lookupA]

theorem c1_reach1 : RidReaches [] c1st1 :=
  Relation.ReflTransGen.single (RidStep.step _ _ _)

theorem c1_reach2 : RidReaches [] c1r2.2 :=
  Relation.ReflTransGen.tail c1_reach1 (RidStep.step _ _ _)

theorem c1_reach23 : RidReaches c1r2.2 c1r3.2 :=
  Relation.ReflTransGen.single (RidStep.step _ _ _)

/-- C1 is false as stated: within one shared `citation_ids` map evolved
from empty, `resolve_ref_id` returns the same assigned label
`(Doe_1, 2024)` for the two distinct corpus ids 102 and 103 — the
author-year string `(Doe_1, 2024)` literally collides with the suffixed
label assigned under `(Doe, 2024)`. -/
theorem C1_counterexample :
    c1r2.1 = c1r3.1 ∧ (("102").data : Str) ≠ ("103").data :=
  ⟨by decide, by decide⟩

/-- C1 (amended): within one shared `citation_ids` map evolved from empty
by `resolve_ref_id` calls, two distinct corpus ids recorded under the
*same* author-year string never receive the same assigned label; every
call records the label it returns, and a recurring
(author-year, corpus id) pair receives exactly the label assigned on its
first call.  (Distinct corpus ids under *different* author-year strings
can collide, as `C1_counterexample` shows.) -/
theorem C1_amended :
    (∀ st : CState, RidReaches [] st → ∀ r c₁ l₁ c₂ l₂,
        assignedLabel st r c₁ = some l₁ → assignedLabel st r c₂ = some l₂ →
        c₁ ≠ c₂ → l₁ ≠ l₂)
  ∧ (∀ r c st, assignedLabel (resolve_ref_id r c st).2 r c = some (resolve_ref_id r c st).1)
  ∧ (∀ st st' : CState, RidReaches st st' → ∀ r c l,
        assignedLabel st r c = some l → (resolve_ref_id r c st').1 = l) := by
  refine ⟨?_, ?_, ?_⟩
  · intro st hreach r c₁ l₁ c₂ l₂ h1 h2 hne
    have hok := ridOk_reaches hreach
    unfold assignedLabel at h1 h2
    cases hsr : lookupA st r with
    | none => rw [hsr] at h1; simp at h1
    | some inner =>
      rw [hsr] at h1 h2
      simp only [Option.some_bind] at h1 h2
      have hinner := hok.2 (r, inner) (lookupA_eq_some_mem st r inner hsr)
      obtain ⟨n₁, hn1⟩ := List.mem_iff_get.mp (lookupA_eq_some_mem inner c₁ l₁ h1)
      obtain ⟨n₂, hn2⟩ := List.mem_iff_get.mp (lookupA_eq_some_mem inner c₂ l₂ h2)
      have e1 : l₁ = mkLabel r n₁.1 := by
        have h := hinner.1 n₁.1 n₁.2
        rw [Fin.eta] at h
        rw [hn1] at h
        simpa using h
      have e2 : l₂ = mkLabel r n₂.1 := by
        have h := hinner.1 n₂.1 n₂.2
        rw [Fin.eta] at h
        rw [hn2] at h
        simpa using h
      have hvne : n₁.1 ≠ n₂.1 := by
        intro hv
        have : n₁ = n₂ := Fin.ext hv
        rw [this, hn2] at hn1
        exact hne (congrArg Prod.fst hn1).symm
      rw [e1, e2]
      exact mkLabel_inj r hvne
  · intro r c st
    exact first_call_assigns r c st
  · intro st st' h r c l hl
    exact resolve_of_assigned r c l (assigned_reaches h r c l hl)

/-- Witness for `C1_amended` at the concrete C1 scenario: the two labels
assigned under `(Doe, 2024)` differ, and re-asking for corpus id 101 in
the later state returns the label of its first call. -/
theorem C1_witness :
    ((("(Doe, 2024)").data : Str) ≠ ("(Doe_1, 2024)").data)
    ∧ (resolve_ref_id (("(Doe, 2024)").data) (("101").data) c1r3.2).1 = ("(Doe, 2024)").data := by
  constructor
  · exact C1_amended.1 c1r2.2 c1_reach2 (("(Doe, 2024)").data)
      (("101").data) (("(Doe, 2024)").data) (("102").data) (("(Doe_1, 2024)").data)
      (by decide) (by decide) (by decide)
  · exact C1_amended.2.2 c1r2.2 c1r3.2 c1_reach23 (("(Doe, 2024)").data)
      (("101").data) (("(Doe, 2024)").data) (by decide)

theorem foldlStrip_sublist :
    ∀ (ps : List Str) (s : Str),
      (ps.foldl (fun t p => if p.isPrefixOf t then t.drop p.length else t) s).Sublist s := by
  intro ps
  induction ps with
  | nil => intro s; exact List.Sublist.refl s
  | cons p ps ih =>
    intro s
    simp only [List.foldl_cons]
    by_cases h : p.isPrefixOf s
    · rw [if_pos h]
      exact (ih (s.drop p.length)).trans (List.drop_sublist _ _)
    · rw [if_neg h]
      exact ih s

theorem mem_pyStrip {s : Str} {c : Char} (h : c ∈ pyStrip s) : c ∈ s := by
  unfold pyStrip at h
  rw [List.mem_reverse] at h
  have h2 := (List.dropWhile_sublist pyIsSpace).mem h
  rw [List.mem_reverse] at h2
  exact (List.dropWhile_sublist pyIsSpace).mem h2

theorem mem_normalize_id {x : Str} {c : Char} (h : c ∈ normalize_id x) : c ∈ anyascii x := by
  unfold normalize_id lstripSet rstripSet at h
  have h1 := (List.dropWhile_sublist _).mem h
  rw [List.mem_reverse] at h1
  have h2 := (List.dropWhile_sublist _).mem h1
  rw [List.mem_reverse] at h2
  have h3 := (foldlStrip_sublist normPrefixList _).mem h2
  exact mem_pyStrip h3

theorem anyascii_all_ascii (x : Str) : ∀ c ∈ anyascii x, c.toNat < 128 := by
  intro c hc
  unfold anyascii at hc
  rw [List.mem_flatten] at hc
  obtain ⟨l, hl, hcl⟩ := hc
  rw [List.mem_map] at hl
  obtain ⟨a, _, rfl⟩ := hl
  unfold anyasciiChar at hcl
  by_cases ha : a.toNat < 128
  · rw [if_pos ha] at hcl
    simp at hcl
    exact hcl ▸ ha
  · rw [if_neg ha] at hcl
    by_cases h1 : a = '“' ∨ a = '”'
    · rw [if_pos h1] at hcl
      simp at hcl
      subst hcl
      decide
    · rw [if_neg h1] at hcl
      by_cases h2 : a = '‘' ∨ a = '’'
      · rw [if_pos h2] at hcl
        simp at hcl
        subst hcl
        decide
      · rw [if_neg h2] at hcl
        by_cases h3 : a = 'é'
        · rw [if_pos h3] at hcl
          simp at hcl
          subst hcl
          decide
        · rw [if_neg h3] at hcl
          simp at hcl

theorem anyascii_fix {s : Str} (h : ∀ c ∈ s, c.toNat < 128) : anyascii s = s := by
  induction s with
  | nil => rfl
  | cons a as ih =>
    have ha : anyasciiChar a = [a] := by
      unfold anyasciiChar
      rw [if_pos (h a (by simp))]
    show anyasciiChar a ++ anyascii as = a :: as
    rw [ha, ih (fun c hc => h c (by simp [hc]))]
    rfl

theorem lstripSet_getLast? {set : List Char} {z : Str} {c : Char}
    (h : (lstripSet set z).getLast? = some c) : z.getLast? = some c := by
  unfold lstripSet at h
  conv_lhs => rw [← List.takeWhile_append_dropWhile (fun c => set.contains c) z]
  rw [List.getLast?_append, h]
  rfl

theorem rstripSet_getLast? {set : List Char} {z : Str} {c : Char}
    (h : (rstripSet set z).getLast? = some c) : set.contains c = false := by
  unfold rstripSet at h
  rw [List.getLast?_reverse] at h
  exact dropWhile_head_false _ c h

theorem rstripSet_eq_self {set : List Char} {z : Str}
    (h : ∀ c, z.getLast? = some c → set.contains c = false) : rstripSet set z = z := by
  unfold rstripSet
  rw [dropWhile_eq_self, List.reverse_reverse]
  intro c hc
  rw [List.head?_reverse] at hc
  exact h c hc

theorem lstripSet_eq_self {set : List Char} {z : Str}
    (h : ∀ c, z.head? = some c → set.contains c = false) : lstripSet set z = z :=
  dropWhile_eq_self h

theorem foldl_fixed {α β : Type} {f : α → β → α} {a : α} :
    ∀ (l : List β), (∀ b ∈ l, f a b = a) → l.foldl f a = a := by
  intro l
  induction l with
  | nil => intro _; rfl
  | cons b bs ih =>
    intro hf
    rw [List.foldl_cons, hf b (by simp)]
    exact ih (fun x hx => hf x (by simp [hx]))

theorem stripNormPrefixes_eq_self {z : Str}
    (h : ∀ p ∈ normPrefixList, ¬ p.isPrefixOf z) : stripNormPrefixes z = z := by
  unfold stripNormPrefixes
  apply foldl_fixed
  intro p hp
  simp only [if_neg (h p hp)]

/-- C4 is false as stated: the normalizer is not idempotent on every
input.  One application of `normalize_id` to `arxiv:arxiv:1` strips one
`arxiv:` label, and a second application strips the newly exposed one. -/
theorem C4_counterexample :
    normalize_id (normalize_id (("arxiv:arxiv:1").data))
      ≠ normalize_id (("arxiv:arxiv:1").data) := by decide

/-- C4 (amended): `normalize_id` is idempotent on every input whose
normalized form is whitespace-trimmed and does not itself start with one
of the stripped labels `paperid `, `paperId `, `arxiv:`, `arXiv:`.
(The trailing-punctuation trim, the leading-`[` trim and the ASCII
transliteration are always stable on a normalized form; only re-exposed
whitespace or labels break idempotence, as `C4_counterexample` shows.) -/
theorem C4_amended (x : Str)
    (h1 : pyStrip (normalize_id x) = normalize_id x)
    (h2 : ∀ p ∈ normPrefixList, ¬ p.isPrefixOf (normalize_id x)) :
    normalize_id (normalize_id x) = normalize_id x := by
  have hascii : ∀ c ∈ normalize_id x, c.toNat < 128 :=
    fun c hc => anyascii_all_ascii x c (mem_normalize_id hc)
  have ha : anyascii (normalize_id x) = normalize_id x := anyascii_fix hascii
  show lstripSet ['['] (rstripSet normTrailSet (stripNormPrefixes (pyStrip (anyascii (normalize_id x)))))
      = normalize_id x
  rw [ha, h1, stripNormPrefixes_eq_self h2]
  have hr : rstripSet normTrailSet (normalize_id x) = normalize_id x := by
    apply rstripSet_eq_self
    intro c hc
    exact rstripSet_getLast? (lstripSet_getLast? hc)
  rw [hr]
  apply lstripSet_eq_self
  intro c hc
  exact dropWhile_head_false _ c hc

/-- Witness for `C4_amended` at the concrete input `" [42]. "`. -/
theorem C4_witness :
    (pyStrip (normalize_id ((" [42]. ").data)) = normalize_id ((" [42]. ").data)
      ∧ ∀ p ∈ normPrefixList, ¬ p.isPrefixOf (normalize_id ((" [42]. ").data)))
    ∧ normalize_id (normalize_id ((" [42]. ").data)) = normalize_id ((" [42]. ").data) :=
  ⟨⟨by decide, by decide⟩, C4_amended _ (by decide) (by decide)⟩

theorem find_tldr_none {t : Str} (h : ∀ r ∈ wordRuns t, containsTldr r = false) :
    find_tldr_super_token t = none := by
  unfold find_tldr_super_token findTldrWord
  rw [List.find?_eq_none.mpr (fun x hx => by simp [h x hx])]

/-- C6 (confirmed): raw text with no whitespace-delimited token carrying a
word-bounded case-insensitive `tldr` substring makes `get_section_text`
raise (the generic invalid-content exception reaches the caller, no empty
section is fabricated); and when the located tldr super-token sits at the
very end of the text with no remaining content, the `IndexError` from
`text_parts[1]` is propagated. -/
theorem C6_error_paths :
    (∀ t : Str, (∀ r ∈ wordRuns t, containsTldr r = false) →
        get_section_text t = .error .invalidContent)
  ∧ (∀ t tok pre : Str, find_tldr_super_token t = some tok →
        splitOnStr tok t = [pre, []] →
        get_section_text t = .error .indexError) := by
  constructor
  · intro t h
    unfold get_section_text
    rw [find_tldr_none h]
  · intro t tok pre hfind hsplit
    unfold get_section_text
    rw [hfind]
    dsimp only
    rw [hsplit]
    simp [pySplitOnce, pyStrip]

/-- Witness for `C6_error_paths` at concrete malformed inputs. -/
theorem C6_witness :
    ((∀ r ∈ wordRuns (("no summary marker here").data), containsTldr r = false)
      ∧ get_section_text (("no summary marker here").data) = .error .invalidContent)
    ∧ (find_tldr_super_token (("Intro **TLDR:**").data) = some (("**TLDR:**").data)
      ∧ splitOnStr (("**TLDR:**").data) (("Intro **TLDR:**").data) = [("Intro ").data, []]
      ∧ get_section_text (("Intro **TLDR:**").data) = .error .indexError) := by
  refine ⟨⟨by decide, C6_error_paths.1 _ (by decide)⟩,
    ⟨by decide, by decide,
      C6_error_paths.2 (("Intro **TLDR:**").data) (("**TLDR:**").data) (("Intro ").data)
        (by decide) (by decide)⟩⟩

/-- C2 (confirmed): for a bracket token failing exact and normalized-id
lookup, unique-prefix resolution resolves only when exactly one normalized
pool key extends the normalized token within the pool being tried; the
main quote pool is tried first, a pool with zero or several candidates
does not resolve, and when both pools fail the token stays unresolved. -/
theorem C2_prefix_resolution (mq : List (Str × QuoteRec)) (iq : List (Str × Str)) (ref : Str)
    (hm : dmem mq ref = false) (hi : dmem iq ref = false)
    (hdm : lookupA (buildIdMap (mq.map Prod.fst)) (normalize_id (firstField ref)) = none)
    (hdi : lookupA (buildIdMap (iq.map Prod.fst)) (normalize_id (firstField ref)) = none) :
    ((prefixCands (mq.map Prod.fst) ref).length = 1 →
        resolveRef mq iq ref = some
          ((lookupA (buildIdMap (mq.map Prod.fst))
            ((prefixCands (mq.map Prod.fst) ref).headD [])).getD [], true))
  ∧ ((prefixCands (mq.map Prod.fst) ref).length ≠ 1 →
      (prefixCands (iq.map Prod.fst) ref).length = 1 →
        resolveRef mq iq ref = some
          ((lookupA (buildIdMap (iq.map Prod.fst))
            ((prefixCands (iq.map Prod.fst) ref).headD [])).getD [], false))
  ∧ ((prefixCands (mq.map Prod.fst) ref).length ≠ 1 →
      (prefixCands (iq.map Prod.fst) ref).length ≠ 1 →
        resolveRef mq iq ref = none) := by
  unfold resolveRef prefixCands
  simp only [hm, hi, Bool.false_eq_true, if_false]
  rw [hdm]
  dsimp only
  rw [hdi]
  dsimp only
  refine ⟨?_, ?_, ?_⟩
  · intro h1
    rw [if_pos h1]
  · intro h1 h2
    rw [if_neg h1, if_pos h2]
  · intro h1 h2
    rw [if_neg h1, if_neg h2]

/-- Witness for `C2_prefix_resolution`: the token `[1]` is ambiguous in
the main pool (two candidates) and unique in the inline pool, so it
resolves to the inline key. -/
theorem C2_witness :
    (dmem c2mq (("[1]").data) = false ∧ dmem c2iq (("[1]").data) = false
      ∧ (prefixCands (c2mq.map Prod.fst) (("[1]").data)).length = 2
      ∧ (prefixCands (c2iq.map Prod.fst) (("[1]").data)).length = 1)
    ∧ resolveRef c2mq c2iq (("[1]").data) = some ((("[15 | C | 2019 | Citations: 0]").data), false) := by
  refine ⟨⟨by decide, by decide, by decide, by decide⟩, ?_⟩
  have h := (C2_prefix_resolution c2mq c2iq (("[1]").data)
    (by decide) (by decide) (by decide) (by decide)).2.1 (by decide) (by decide)
  rw [h]
  decide

/-- C3 is false as stated: in a section whose pool holds corpus id `7`
under the composite key, the shorthand token `[7]` resolves to the same
corpus id; no second record is appended (refs list stays at one), but the
token `[7]` is *not* replaced — it survives in the section text. -/
theorem C3_counterexample :
    (processRefs c3cfg [c3key, ("[7]").data] c3st0).map
        (fun st => (occursStr (("[7]").data) st.text, st.refs_list.length))
      = .ok (true, 1) := by decide

/-- C3 (amended): when a bracket token resolves to a corpus id already
resolved earlier in the same section, the whole processing block is
skipped: no second CitationRecord is appended *and no replacement is
performed* — the section state is returned unchanged, so a token string
different from the one first resolved to this corpus id remains in the
body (`C3_counterexample`).  Occurrences of the first token string itself
were all already replaced when it was first processed (`str.replace`
replaces every occurrence). -/
theorem C3_amended (cfg : Config) (st : SecState) (ref0 key : Str) (b : Bool)
    (hres : resolveRef cfg.mq cfg.iq (anyascii ref0) = some (key, b))
    (hk : key ≠ [])
    (hlen : 3 ≤ (splitOnStr ((" | ").data) (slice1neg1 key)).length)
    (hdone : normalize_id ((splitOnStr ((" | ").data) (slice1neg1 key)).headD []) ∈ st.refs_done) :
    processRef cfg st ref0 = .ok st := by
  unfold processRef
  dsimp only
  rw [hres]
  dsimp only
  rw [if_neg hk, if_pos hlen, if_pos hdone]

/-- Witness for `C3_amended`: processing `[7]` in a state where corpus id
`7` is already done leaves the state untouched. -/
theorem C3_witness :
    (resolveRef c3cfg.mq c3cfg.iq (anyascii (("[7]").data)) = some (c3key, true)
      ∧ normalize_id ((splitOnStr ((" | ").data) (slice1neg1 c3key)).headD []) ∈ c3st1.refs_done)
    ∧ processRef c3cfg c3st1 (("[7]").data) = .ok c3st1 :=
  ⟨⟨by decide, by decide⟩,
    C3_amended c3cfg c3st1 (("[7]").data) c3key true (by decide) (by decide) (by decide) (by decide)⟩

/-- C7 is false as stated: empty or whitespace-only fragments are *not*
dropped from the snippet list — the quote `A......B` yields a snippet list
containing the empty fragment. -/
theorem C7_counterexample :
    (pop_ref_data (("(S, 2020)").data) (("1").data) (fixQuote (("A......B").data)) none).snippets
        = [("A").data, [], ("B").data]
      ∧ [] ∈ (pop_ref_data (("(S, 2020)").data) (("1").data)
          (fixQuote (("A......B").data)) none).snippets := by
  exact ⟨by decide, by decide⟩

/-- C7 (amended): the snippet list is the cleaned quote (trimmed, one
leading and one trailing `...` artifact dropped) split on `...` with each
fragment trimmed; empty fragments are retained, not dropped.  The quote
`...A... B...C...` still yields exactly `[A, B, C]`, while `A......B`
yields `[A, "", B]`. -/
theorem C7_amended :
    (∀ (q l c : Str) (md : Option Metadata),
        (pop_ref_data l c (fixQuote q) md).snippets
          = (splitOnStr (("...").data) (fixQuote q)).map pyStrip)
  ∧ (pop_ref_data (("(S, 2020)").data) (("1").data)
      (fixQuote (("...A... B...C...").data)) none).snippets
      = [("A").data, ("B").data, ("C").data]
  ∧ (pop_ref_data (("(S, 2020)").data) (("1").data)
      (fixQuote (("A......B").data)) none).snippets
      = [("A").data, [], ("B").data] := by
  refine ⟨?_, by decide, by decide⟩
  intro q l c md
  cases md <;> rfl

/-- C8 (confirmed): a bracket token that resolves in neither pool raises
no exception — the token is erased from the text (replaced by nothing),
the citations list is untouched, and the loop continues with the
remaining tokens. -/
theorem C8_unresolved_token (cfg : Config) (st : SecState) (ref0 : Str) (rest : List Str)
    (h : resolveRef cfg.mq cfg.iq (anyascii ref0) = none) :
    processRef cfg st ref0 = .ok { st with text := replaceAll st.text (anyascii ref0) [] }
  ∧ processRefs cfg (ref0 :: rest) st
      = processRefs cfg rest { st with text := replaceAll st.text (anyascii ref0) [] } := by
  have h1 : processRef cfg st ref0 = .ok { st with text := replaceAll st.text (anyascii ref0) [] } := by
    unfold processRef
    dsimp only
    rw [h]
  refine ⟨h1, ?_⟩
  rw [show processRefs cfg (ref0 :: rest) st
      = (match processRef cfg st ref0 with
        | .ok st' => processRefs cfg rest st'
        | .error e => .error e) from rfl, h1]

/-- Witness for `C8_unresolved_token`: the token `[zz]` matches nothing in
the C3 pools and is simply stripped. -/
theorem C8_witness :
    (resolveRef c3cfg.mq c3cfg.iq (anyascii (("[zz]").data)) = none)
    ∧ processRef c3cfg c3st0 (("[zz]").data)
        = .ok { c3st0 with text := replaceAll c3st0.text (anyascii (("[zz]").data)) [] } :=
  ⟨by decide, (C8_unresolved_token c3cfg c3st0 (("[zz]").data) [] (by decide)).1⟩

/-- C10 (confirmed, implicit): a model name without a `/` separator makes
`get_json_summary` raise `IndexError` while formatting the model tag,
before any section is processed (the error is returned for every section
list). -/
theorem C10_model_name (llm_model : Str) (h : ¬ '/' ∈ llm_model)
    (summary_sections : List Str) (summary_quotes : List (Str × QuoteRec))
    (paper_metadata : List (Str × Metadata)) (citation_ids : CState) (inline_tags : Bool) :
    get_json_summary llm_model summary_sections summary_quotes paper_metadata
        citation_ids inline_tags
      = .error .indexError := by
  have hc : llm_model.contains '/' = false := by simpa using h
  unfold get_json_summary pySplitOnce
  rw [hc]
  simp

/-- Witness for `C10_model_name` at the provider-free name `gpt4`. -/
theorem C10_witness :
    (¬ '/' ∈ (("gpt4").data : Str))
    ∧ get_json_summary (("gpt4").data) [("Intro TLDR: t\nbody").data] [] [] [] false
        = .error .indexError :=
  ⟨by decide, C10_model_name (("gpt4").data) (by decide) _ _ _ _ _⟩

/-- C9 is a code bug: the `isinstance(raw_output, (dict, list))` early
return at line 75 is unreachable for a bare dict or list — the coercion at
lines 29-33 has already turned any such value into its `str()` rendering,
so the structured-value check is false at its point in the control flow. -/
theorem C9_structured_check_dead (v : PyVal) (h : isStructured v = true) :
    isStructured (coerce_raw v) = false := by
  cases v <;> simp_all [isStructured, coerce_raw]

/-- Witness for `C9_structured_check_dead` at the empty dict. -/
theorem C9_witness :
    isStructured (PyVal.pdict []) = true
    ∧ isStructured (coerce_raw (PyVal.pdict [])) = false :=
  ⟨rfl, C9_structured_check_dead (PyVal.pdict []) rfl⟩

theorem isPrefixOf_append_self : ∀ (xs ys : List Char), xs.isPrefixOf (xs ++ ys) = true := by
  intro xs
  induction xs with
  | nil => intro ys; simp [List.isPrefixOf]
  | cons a as ih => intro ys; simp [List.isPrefixOf, ih]

theorem matchAfterName_schematic (yearF nF tail : Str)
    (hy : yearF ≠ []) (hy2 : ∀ c ∈ yearF, isDigitChar c = true)
    (hnf : nF ≠ []) (hnf2 : ∀ c ∈ nF, isDigitChar c = true)
    (htail : ∀ c, tail.head? = some c → isDigitChar c = false) :
    matchAfterName (' ' :: '|' :: ' ' :: (yearF ++ ((" | Citations: ").data ++ (nF ++ tail))))
      = some (17 + yearF.length + nF.length) := by
  have hshape : ' ' :: '|' :: ' ' :: (yearF ++ ((" | Citations: ").data ++ (nF ++ tail)))
      = (" | ").data ++ (yearF ++ ((" | Citations: ").data ++ (nF ++ tail))) := rfl
  unfold matchAfterName
  rw [hshape, isPrefixOf_append_self]
  simp only [if_true]
  rw [show ((" | ").data ++ (yearF ++ ((" | Citations: ").data ++ (nF ++ tail)))).drop 3
      = yearF ++ ((" | Citations: ").data ++ (nF ++ tail)) from by
    rw [show (3 : Nat) = (" | ").data.length from rfl]
    exact List.drop_left _ _]
  rw [takeWhile_all_head yearF _ hy2 (fun c hc => by
    rw [show (" | Citations: ").data ++ (nF ++ tail) = ' ' :: (("| Citations: ").data ++ (nF ++ tail)) from rfl] at hc
    simp at hc
    subst hc
    rfl)]
  rw [if_neg (by simpa using hy)]
  rw [List.drop_left]
  rw [isPrefixOf_append_self]
  simp only [if_true]
  rw [show ((" | Citations: ").data ++ (nF ++ tail)).drop 14 = nF ++ tail from by
    rw [show (14 : Nat) = (" | Citations: ").data.length from rfl]
    exact List.drop_left _ _]
  rw [takeWhile_all_head nF tail hnf2 htail]
  rw [if_neg (by simpa using hnf)]
  congr 1
  omega

theorem tryNameLen_schematic (nameF R : Str) (j : Nat)
    (hn : nameF ≠ [])
    (hAfter : matchAfterName (' ' :: '|' :: ' ' :: R) = some j) :
    tryNameLen (nameF ++ ' ' :: '|' :: ' ' :: R) (nameF.length + 1) = some (nameF.length + j) := by
  have hdrop1 : (nameF ++ ' ' :: '|' :: ' ' :: R).drop (nameF.length + 1) = '|' :: ' ' :: R := by
    rw [show nameF ++ ' ' :: '|' :: ' ' :: R = (nameF ++ [' ']) ++ ('|' :: ' ' :: R) by simp]
    rw [show nameF.length + 1 = (nameF ++ [' ']).length by simp]
    exact List.drop_left _ _
  have hdrop0 : (nameF ++ ' ' :: '|' :: ' ' :: R).drop nameF.length = ' ' :: '|' :: ' ' :: R :=
    List.drop_left _ _
  have hfail : matchAfterName ('|' :: ' ' :: R) = none := by
    unfold matchAfterName
    rw [show ((" | ").data.isPrefixOf ('|' :: ' ' :: R)) = false from rfl]
    simp
  cases hne : nameF with
  | nil => exact absurd hne hn
  | cons c0 name' =>
    rw [← hne]
    unfold tryNameLen
    rw [hdrop1, hfail]
    rw [hne]
    simp only [List.length_cons]
    unfold tryNameLen
    rw [← hne, ← List.length_cons c0 name', ← hne, hdrop0, hAfter]

theorem matchFrag_schematic (idF nameF R : Str) (j : Nat)
    (hid : idF ≠ []) (hid2 : ∀ c ∈ idF, notSpace c = true)
    (hn : nameF ≠ []) (hn2 : ∀ c ∈ nameF, isNameChar c = true)
    (hAfter : matchAfterName (' ' :: '|' :: ' ' :: R) = some j) :
    matchFrag (idF ++ ' ' :: '|' :: ' ' :: (nameF ++ ' ' :: '|' :: ' ' :: R))
      = some (idF.length + 3 + (nameF.length + j)) := by
  unfold matchFrag
  rw [takeWhile_all_head idF _ hid2 (fun c hc => by simp at hc; subst hc; rfl)]
  rw [if_neg (by simpa using hid)]
  rw [List.drop_left]
  rw [show (' ' :: '|' :: ' ' :: (nameF ++ ' ' :: '|' :: ' ' :: R))
      = (" | ").data ++ (nameF ++ ' ' :: '|' :: ' ' :: R) from rfl]
  dsimp only
  rw [isPrefixOf_append_self]
  simp only [if_true]
  rw [show List.drop 3 ([' ', '|', ' '] ++ (nameF ++ ' ' :: '|' :: ' ' :: R))
      = nameF ++ ' ' :: '|' :: ' ' :: R from rfl]
  rw [show nameF ++ ' ' :: '|' :: ' ' :: R = (nameF ++ [' ']) ++ '|' :: ' ' :: R by simp]
  rw [takeWhile_all_head (nameF ++ [' ']) ('|' :: ' ' :: R)
    (by intro c hc
        rcases List.mem_append.mp hc with h1 | h1
        · exact hn2 c h1
        · simp at h1; subst h1; rfl)
    (fun c hc => by simp at hc; subst hc; rfl)]
  rw [show nameF ++ [' '] ++ '|' :: ' ' :: R = nameF ++ ' ' :: '|' :: ' ' :: R by simp]
  rw [show (nameF ++ [' ']).length = nameF.length + 1 by simp]
  rw [tryNameLen_schematic nameF R j hn hAfter]

theorem repairScanAux_nil (f : Nat) : repairScanAux f [] = [] := by cases f <;> rfl

theorem repairScanAux_step (f : Nat) (c : Char) (cs : Str) (len off : Nat)
    (h : tryRepair (c :: cs) = some (len, off)) :
    repairScanAux (f + 1) (c :: cs)
      = ("] [").data ++ ((c :: cs).drop off).take (len - off)
          ++ repairScanAux f ((c :: cs).drop len) := by
  rw [show repairScanAux (f + 1) (c :: cs)
      = (match tryRepair (c :: cs) with
        | some (len, off) =>
          ("] [").data ++ ((c :: cs).drop off).take (len - off)
            ++ repairScanAux f ((c :: cs).drop len)
        | none => c :: repairScanAux f cs) from rfl, h]

theorem repairScanAux_skip (f : Nat) (c : Char) (cs : Str)
    (h : tryRepair (c :: cs) = none) :
    repairScanAux (f + 1) (c :: cs) = c :: repairScanAux f cs := by
  rw [show repairScanAux (f + 1) (c :: cs)
      = (match tryRepair (c :: cs) with
        | some (len, off) =>
          ("] [").data ++ ((c :: cs).drop off).take (len - off)
            ++ repairScanAux f ((c :: cs).drop len)
        | none => c :: repairScanAux f cs) from rfl, h]

theorem repairScan_rbracket (f : Nat) : repairScanAux (f + 1) [']'] = [']'] := by
  rw [repairScanAux_skip f ']' [] (by rfl), repairScanAux_nil]

/-- C5 is false as stated: the adjacency-fix pattern has no bracket-context
check, so a fragment already wrapped in its own brackets is *not* left
unchanged — the match starts at the opening bracket (absorbed by `\S+`)
and the synthetic `] [` is inserted in front of it. -/
theorem C5_counterexample :
    repairSub (("[123 | Smith | 2020 | Citations: 5]").data)
        = ("] [[123 | Smith | 2020 | Citations: 5]").data
    ∧ repairSub (("[123 | Smith | 2020 | Citations: 5]").data)
        ≠ ("[123 | Smith | 2020 | Citations: 5]").data :=
  ⟨by decide, by decide⟩

/-- C5 (amended): the repair inserts `] [` before every
composite-key-shaped fragment it matches, absorbing an optional leading
`; ` separator, with no regard to bracket context: a fragment standing on
its own receives the insertion, and so does a fragment already inside its
own bracket pair (its opening bracket is absorbed into the `\S+` id field
of the match), rather than being left unchanged. -/
theorem C5_amended (idF nameF yearF nF : Str)
    (hid2 : ∀ c ∈ idF, notSpace c = true)
    (hn : nameF ≠ []) (hn2 : ∀ c ∈ nameF, isNameChar c = true)
    (hy : yearF ≠ []) (hy2 : ∀ c ∈ yearF, isDigitChar c = true)
    (hnf : nF ≠ []) (hnf2 : ∀ c ∈ nF, isDigitChar c = true) :
    repairSub ('[' :: fragStr idF nameF yearF nF ++ [']'])
        = ("] [").data ++ '[' :: fragStr idF nameF yearF nF ++ [']']
  ∧ repairSub (("; ").data ++ '[' :: fragStr idF nameF yearF nF ++ [']'])
        = ("] [").data ++ '[' :: fragStr idF nameF yearF nF ++ [']'] := by
  have hAfter := matchAfterName_schematic yearF nF [']'] hy hy2 hnf hnf2
    (fun c hc => by simp at hc; subst hc; rfl)
  have hid2' : ∀ c ∈ ('[' :: idF), notSpace c = true := by
    intro c hc
    rcases List.mem_cons.mp hc with h1 | h1
    · subst h1; rfl
    · exact hid2 c h1
  have hfrag0 := matchFrag_schematic ('[' :: idF) nameF
    (yearF ++ ((" | Citations: ").data ++ (nF ++ [']']))) (17 + yearF.length + nF.length)
    (by simp) hid2' hn hn2 hAfter
  have hshape : '[' :: fragStr idF nameF yearF nF ++ [']']
      = ('[' :: idF) ++ ' ' :: '|' :: ' ' ::
          (nameF ++ ' ' :: '|' :: ' ' ::
            (yearF ++ ((" | Citations: ").data ++ (nF ++ [']'])))) := by
    unfold fragStr
    rw [show (" | ").data = ([' '] ++ ['|'] ++ [' '] : Str) from rfl]
    simp
  have hL : ('[' :: idF).length + 3 + (nameF.length + (17 + yearF.length + nF.length))
      = ('[' :: fragStr idF nameF yearF nF).length := by
    unfold fragStr
    simp
    omega
  have htake : ('[' :: fragStr idF nameF yearF nF ++ [']']).take
      ('[' :: fragStr idF nameF yearF nF).length = '[' :: fragStr idF nameF yearF nF := by
    rw [show '[' :: fragStr idF nameF yearF nF ++ [']']
        = ('[' :: fragStr idF nameF yearF nF) ++ [']'] from rfl]
    exact List.take_left _ _
  have hdropL : ('[' :: fragStr idF nameF yearF nF ++ [']']).drop
      ('[' :: fragStr idF nameF yearF nF).length = [']'] := by
    rw [show '[' :: fragStr idF nameF yearF nF ++ [']']
        = ('[' :: fragStr idF nameF yearF nF) ++ [']'] from rfl]
    exact List.drop_left _ _
  have htry : tryRepair ('[' :: fragStr idF nameF yearF nF ++ [']'])
      = some (('[' :: fragStr idF nameF yearF nF).length, 0) := by
    unfold tryRepair
    rw [show (("; ").data.isPrefixOf ('[' :: fragStr idF nameF yearF nF ++ [']'])) = false from rfl]
    simp only [Bool.false_eq_true, if_false]
    rw [hshape, hfrag0, hL]
  constructor
  · unfold repairSub
    have hconv : '[' :: fragStr idF nameF yearF nF ++ [']']
        = '[' :: (fragStr idF nameF yearF nF ++ [']']) := by simp
    rw [hconv]
    rw [show ('[' :: (fragStr idF nameF yearF nF ++ [']'])).length
        = (((fragStr idF nameF yearF nF).length + 1) + 1) by simp]
    rw [repairScanAux_step ((fragStr idF nameF yearF nF).length + 1) '['
      (fragStr idF nameF yearF nF ++ [']'])
      ('[' :: fragStr idF nameF yearF nF).length 0 (by rw [← hconv]; exact htry)]
    rw [List.drop_zero, Nat.sub_zero]
    rw [← hconv, htake, hdropL, repairScan_rbracket]
  · unfold repairSub
    rw [show ("; ").data ++ '[' :: fragStr idF nameF yearF nF ++ [']']
        = ';' :: ' ' :: ('[' :: fragStr idF nameF yearF nF ++ [']']) from rfl]
    have htry2 : tryRepair (';' :: ' ' :: ('[' :: fragStr idF nameF yearF nF ++ [']']))
        = some (2 + ('[' :: fragStr idF nameF yearF nF).length, 2) := by
      unfold tryRepair
      rw [show (';' :: ' ' :: ('[' :: fragStr idF nameF yearF nF ++ [']']))
          = ("; ").data ++ ('[' :: fragStr idF nameF yearF nF ++ [']']) from rfl]
      rw [isPrefixOf_append_self]
      simp only [if_true]
      rw [show (("; ").data ++ ('[' :: fragStr idF nameF yearF nF ++ [']'])).drop 2
          = '[' :: fragStr idF nameF yearF nF ++ [']'] from rfl]
      rw [hshape, hfrag0, hL]
    rw [show (';' :: ' ' :: ('[' :: fragStr idF nameF yearF nF ++ [']'])).length
        = ((('[' :: fragStr idF nameF yearF nF ++ [']']).length + 1) + 1) by simp]
    rw [repairScanAux_step (('[' :: fragStr idF nameF yearF nF ++ [']']).length + 1) ';'
      (' ' :: ('[' :: fragStr idF nameF yearF nF ++ [']']))
      (2 + ('[' :: fragStr idF nameF yearF nF).length) 2 htry2]
    rw [show ((';' :: ' ' :: ('[' :: fragStr idF nameF yearF nF ++ [']'])).drop 2)
        = '[' :: fragStr idF nameF yearF nF ++ [']'] from rfl]
    rw [show 2 + ('[' :: fragStr idF nameF yearF nF).length
        - 2 = ('[' :: fragStr idF nameF yearF nF).length by omega]
    rw [htake]
    rw [show 2 + ('[' :: fragStr idF nameF yearF nF).length
        = (('[' :: fragStr idF nameF yearF nF).length + 1) + 1 by omega]
    rw [List.drop_succ_cons, List.drop_succ_cons, hdropL]
    rw [show ('[' :: fragStr idF nameF yearF nF ++ [']']).length
        = ((fragStr idF nameF yearF nF).length + 1) + 1 by simp]
    rw [repairScan_rbracket]

/-- Witness for `C5_amended` at the concrete fragment
`7 | Smith | 2020 | Citations: 3`. -/
theorem C5_witness :
    ((∀ c ∈ (("7").data : Str), notSpace c = true)
      ∧ (∀ c ∈ (("Smith").data : Str), isNameChar c = true))
    ∧ repairSub ('[' :: fragStr (("7").data) (("Smith").data) (("2020").data) (("3").data) ++ [']'])
        = ("] [").data
          ++ '[' :: fragStr (("7").data) (("Smith").data) (("2020").data) (("3").data) ++ [']'] :=
  ⟨⟨by decide, by decide⟩,
    (C5_amended (("7").data) (("Smith").data) (("2020").data) (("3").data)
      (by decide) (by decide) (by decide) (by decide) (by decide) (by decide) (by decide)).1⟩
